import Mathlib

/-!
Shallow embedding of `graphrag/index/storage/file_pipeline_storage.py`
(`FilePipelineStorage` and its helper functions), together with theorems
settling the behavioural claims about that module.

Modelling conventions:
* Python strings are Lean `String`s; byte buffers are `List Nat`.
* `pathlib.Path` values are modelled as lists of path segments
  (`pathSegs`), with `Path.parent` and `Path.name` transcribed segment-wise.
* The local filesystem backing `set` / `get` / `has` is an association list
  from joined paths (segment lists) to stored file data; text files record
  the string written together with the encoding used, since the byte-level
  encoding itself is performed by the Python runtime, outside this module.
* Remote SMB calls (`conn.listPath`, `conn.retrieveFile`) are passed in as
  explicit `Except`-valued functions; the run of a method records, in a
  result structure, which connection operations the code executed.
-/

namespace FileStorage

/-- Split a character list at `/` separators. -/
def splitSegsAux : List Char → List Char → List String
  | [], cur => [String.mk cur.reverse]
  | c :: cs, cur =>
    if c = '/' then String.mk cur.reverse :: splitSegsAux cs []
    else splitSegsAux cs (c :: cur)

/-- Segments of a path string, as `pathlib` normalises them: empty segments
and `.` segments disappear, `..` segments are kept. -/
def pathSegs (s : String) : List String :=
  (splitSegsAux s.data []).filter (fun seg => seg != "" && seg != ".")

/-- `Path(p).parent`, on segment lists: drop the final segment. -/
def pathParent (segs : List String) : List String :=
  segs.dropLast

/-- `Path(p).name`, on segment lists: the final segment, except that the
name of `..` (and of an empty path) is the empty string, which contributes
no segment when joined. -/
def pathNameSegs (segs : List String) : List String :=
  match segs.getLast? with
  | none => []
  | some l => if l = ".." then [] else [l]

/-- Embedding of `join_path(file_path, file_name)`:
`Path(file_path) / Path(file_name).parent / Path(file_name).name`. -/
def join_path (filePath : String) (fileName : String) : List String :=
  pathSegs filePath ++ pathParent (pathSegs fileName) ++ pathNameSegs (pathSegs fileName)

/-- Resolution of `..` segments against what precedes them, as the operating
system resolves the joined path: `..` removes the previous segment. -/
def resolveDots (segs : List String) : List String :=
  segs.foldl (fun acc s => if s = ".." then acc.dropLast else acc ++ [s]) []

/-- The state of a `FilePipelineStorage` instance: its two attributes
`_root_dir` and `_encoding`. -/
structure FilePipelineStorage where
  rootDir : String
  encoding : String
deriving Repr, DecidableEq

/-- Embedding of `FilePipelineStorage.__init__(root_dir, encoding)`:
`self._root_dir = root_dir or ""` and `self._encoding = encoding or "utf-8"`
(the `mkdir` side effect touches only the OS). -/
def FilePipelineStorage.init (rootDir : Option String) (encoding : Option String) :
    FilePipelineStorage :=
  { rootDir := rootDir.getD "", encoding := encoding.getD "utf-8" }

/-- Embedding of `FilePipelineStorage.child(name)`: `self` when `name` is
`None`, otherwise a new `FilePipelineStorage(str(Path(self._root_dir) / Path(name)))` —
note that no encoding argument is passed. -/
def FilePipelineStorage.child (st : FilePipelineStorage) (name : Option String) :
    FilePipelineStorage :=
  match name with
  | none => st
  | some n => FilePipelineStorage.init (some (st.rootDir ++ "/" ++ n)) none

/-- A value passed to `set` / returned by `get`: Python distinguishes byte
strings from text strings with `isinstance(value, bytes)`. -/
inductive Value where
  | bytes (bs : List Nat)
  | text (s : String)
deriving Repr, DecidableEq

/-- `isinstance(value, bytes)`. -/
def Value.isBytes : Value → Bool
  | .bytes _ => true
  | .text _ => false

/-- Stored file data: a binary file holds bytes; a text file records the
written string and the encoding it was written with (the byte-level
encoding is performed by the runtime, outside this module). -/
inductive FileData where
  | binary (bs : List Nat)
  | textFile (content : String) (enc : String)
deriving Repr, DecidableEq

/-- The local filesystem: an association list from joined paths to data;
the most recent write for a path comes first. -/
def FS : Type := List (List String × FileData)

/-- Writing a file: prepend the new entry (reads take the first match). -/
def fsWrite (fs : FS) (p : List String) (d : FileData) : FS :=
  (p, d) :: fs

/-- Reading a file: first entry whose path matches. -/
def fsRead (fs : FS) (p : List String) : Option FileData :=
  (fs.find? (fun e => e.1 = p)).map (fun e => e.2)

/-- Embedding of `FilePipelineStorage.set(key, value, encoding)`: binary
mode when the value is bytes, else text mode with
`encoding or self._encoding`; the target path is
`join_path(self._root_dir, key)`. -/
def FilePipelineStorage.set (st : FilePipelineStorage) (fs : FS) (key : String)
    (value : Value) (encoding : Option String) : FS :=
  match value with
  | .bytes bs => fsWrite fs (join_path st.rootDir key) (.binary bs)
  | .text s => fsWrite fs (join_path st.rootDir key) (.textFile s (encoding.getD st.encoding))

/-- Embedding of `FilePipelineStorage.has(key)`:
`exists(join_path(self._root_dir, key))`. -/
def FilePipelineStorage.has (st : FilePipelineStorage) (fs : FS) (key : String) : Bool :=
  (fsRead fs (join_path st.rootDir key)).isSome

/-- Embedding of `FilePipelineStorage._read_file(path, as_bytes, encoding)`
applied to stored data: binary reads return the bytes of a binary file;
text reads decode a text file with `encoding or self._encoding`, which
returns the written string when the encodings match. A mode or encoding
mismatch depends on byte-level encoding done outside this module and is
left unspecified as `none`. -/
def readFileData (st : FilePipelineStorage) (d : FileData) (asBytes : Bool)
    (encoding : Option String) : Option Value :=
  if asBytes then
    match d with
    | .binary bs => some (.bytes bs)
    | .textFile _ _ => none
  else
    match d with
    | .binary _ => none
    | .textFile s e => if e = encoding.getD st.encoding then some (.text s) else none

/-- Embedding of `FilePipelineStorage.get(key, as_bytes, encoding)`: when
`has(key)`, read `join_path(self._root_dir, key)`; otherwise fall back to
`key` as a standalone path (`exists(key)`); otherwise `None`. -/
def FilePipelineStorage.get (st : FilePipelineStorage) (fs : FS) (key : String)
    (asBytes : Bool) (encoding : Option String) : Option Value :=
  match fsRead fs (join_path st.rootDir key) with
  | some d => readFileData st d asBytes encoding
  | none =>
    match fsRead fs (pathSegs key) with
    | some d => readFileData st d asBytes encoding
    | none => none

theorem fsRead_fsWrite (fs : FS) (p : List String) (d : FileData) :
    fsRead (fsWrite fs p d) p = some d := by
  simp [fsRead, fsWrite, List.find?]

/-- C1: for every key and value written with `set(key, value, encoding)`, a
subsequent `get(key, asBytes, encoding)` with the matching binary/text mode
and the same encoding returns the written value (round-trip through the
local store). -/
theorem set_get_roundtrip (st : FilePipelineStorage) (fs : FS) (key : String)
    (v : Value) (encoding : Option String) :
    FilePipelineStorage.get st (FilePipelineStorage.set st fs key v encoding) key
      v.isBytes encoding = some v := by
  cases v with
  | bytes bs =>
    simp [FilePipelineStorage.get, FilePipelineStorage.set, fsRead_fsWrite,
      readFileData, Value.isBytes]
  | text s =>
    simp [FilePipelineStorage.get, FilePipelineStorage.set, fsRead_fsWrite,
      readFileData, Value.isBytes]

/-- C10: `child(name)` with a non-absent name returns a store whose
configured encoding is the default `"utf-8"`, whatever encoding the parent
was constructed with. -/
theorem child_encoding_default (st : FilePipelineStorage) (n : String) :
    (st.child (some n)).encoding = "utf-8" := rfl

/-- Python `s.replace(c, "")` for a one-character pattern `c`: every
occurrence of the character is removed. -/
def pyRemoveChar (s : String) (c : Char) : String :=
  String.mk (s.data.filter (fun a => a != c))

/-- Embedding of `FilePipelineStorage.get_text_from_word(file)`, with the
parsed document abstracted to the list of its paragraph texts in document
order: `"".join(par.text for par in document.paragraphs)`, then
`.replace(" ", "").replace("　", "")`. -/
def get_text_from_word (paragraphs : List String) : String :=
  pyRemoveChar (pyRemoveChar (String.join paragraphs) ' ') '　'

/-- The key set of `FilePipelineStorage.func_dict`, the extension-to-rule
dispatch table. -/
def func_dict_exts : List String :=
  ["pdf", "docx", "xlsx", "xlsm", "pptx", "txt", "html", "md", "csv"]

theorem pyRemoveChar_data (s : String) (c : Char) :
    (pyRemoveChar s c).data = s.data.filter (fun a => a != c) := rfl

/-- C6 counterexample: the claim says each paragraph text is taken verbatim
and only concatenated, but for the single paragraph `"a b"` the docx rule
returns `"ab"`, not the verbatim concatenation `"a b"`: the rule also
strips space characters. -/
theorem get_text_from_word_counterexample :
    get_text_from_word ["a b"] = "ab"
    ∧ String.join ["a b"] = "a b"
    ∧ ("ab" : String) ≠ "a b" := by
  refine ⟨by decide, by decide, by decide⟩

/-- C6 (amended): the docx rule concatenates the paragraph texts in
document order with no separator and then removes every half-width space
(U+0020) and every full-width space (U+3000); no other transformation is
applied. -/
theorem get_text_from_word_strips_spaces (paragraphs : List String) :
    get_text_from_word paragraphs =
      String.mk ((String.join paragraphs).data.filter (fun c => c != '　' && c != ' ')) := by
  unfold get_text_from_word pyRemoveChar
  simp [List.filter_filter, Function.comp_def]

/-- C9 counterexample: the claim says no key resolves outside the root, but
`join_path` does not sanitise parent-directory segments: with root
`"store"` and key `"../secret.txt"`, the joined path resolves to
`["secret.txt"]`, which is not under the root. -/
theorem join_path_escape_counterexample :
    resolveDots (join_path "store" "../secret.txt") = ["secret.txt"]
    ∧ (List.isPrefixOf (pathSegs "store") (resolveDots (join_path "store" "../secret.txt"))) = false := by
  constructor
  · decide
  · decide

theorem resolveDots_append_no_dotdot (acc : List String) (l : List String)
    (h : ".." ∉ l) :
    l.foldl (fun a s => if s = ".." then a.dropLast else a ++ [s]) acc = acc ++ l := by
  induction l generalizing acc with
  | nil => simp
  | cons x xs ih =>
    have hx : x ≠ ".." := fun hc => h (hc ▸ List.mem_cons_self x xs)
    have hxs : ".." ∉ xs := fun hc => h (List.mem_cons_of_mem x hc)
    simp only [List.foldl_cons, if_neg hx]
    rw [ih (acc ++ [x]) hxs]
    simp

/-- C9 (amended): a key whose segments contain no `..` (joined under a root
likewise free of `..`) resolves to a path that stays within the root: the
root's segments are a prefix of the resolved joined path. The code performs
no sanitisation, so this holds only under that restriction on the key. -/
theorem join_path_stays_in_root (root key : String)
    (hroot : ".." ∉ pathSegs root) (hkey : ".." ∉ pathSegs key) :
    pathSegs root <+: resolveDots (join_path root key) := by
  have hparent : ".." ∉ pathParent (pathSegs key) := by
    intro hc
    exact hkey (List.dropLast_sublist (pathSegs key) |>.mem hc)
  have hname : ".." ∉ pathNameSegs (pathSegs key) := by
    intro hc
    unfold pathNameSegs at hc
    cases hlast : (pathSegs key).getLast? with
    | none => rw [hlast] at hc; simp at hc
    | some l =>
      rw [hlast] at hc
      by_cases hl : l = ".."
      · simp [hl] at hc
      · simp [hl] at hc
        exact hl hc.symm
  have hall : ".." ∉ join_path root key := by
    intro hc
    unfold join_path at hc
    rcases List.mem_append.mp hc with h1 | h2
    · rcases List.mem_append.mp h1 with ha | hb
      · exact hroot ha
      · exact hparent hb
    · exact hname h2
  have : resolveDots (join_path root key) = join_path root key := by
    unfold resolveDots
    have := resolveDots_append_no_dotdot [] (join_path root key) hall
    simpa using this
  rw [this]
  unfold join_path
  exact ⟨pathParent (pathSegs key) ++ pathNameSegs (pathSegs key), by simp⟩

/-- C9 witness: a concrete root and traversal-free key for which the
joined path stays within the root. -/
theorem join_path_stays_in_root_witness :
    pathSegs "store" <+: resolveDots (join_path "store" "sub/a.txt") :=
  join_path_stays_in_root "store" "sub/a.txt" (by decide) (by decide)

/-- The characters after the last `.` of a character list, when a `.` is
present. -/
def lastDotSuffix : List Char → Option (List Char)
  | [] => none
  | c :: cs =>
    match lastDotSuffix cs with
    | some s => some s
    | none => if c = '.' then some cs else none

/-- The extension computed by `getText` from its key:
`_, ext = os.path.splitext(key)` followed by `ext = ext[1:].lower()`.
`os.path.splitext` looks for the last `.` within the final path segment,
with leading dots of that segment not counting as extension separators. -/
def getTextExt (key : String) : String :=
  let base :=
    match (splitSegsAux key.data []).getLast? with
    | some b => b
    | none => ""
  let cs := base.data
  let rest := cs.drop (cs.takeWhile (fun c => c = '.')).length
  match lastDotSuffix rest with
  | some s => String.mk (s.map Char.toLower)
  | none => ""

/-- The per-call SMB parameters of `find` / `getText`: `userid`,
`password`, `share_directory`, `file_server`, `file_path`. -/
structure Creds where
  userid : Option String
  password : Option String
  shareDirectory : Option String
  fileServer : Option String
  filePath : Option String
deriving Repr, DecidableEq

/-- The `datashaper` `Progress` value as built by this module. -/
structure Progress where
  total_items : Nat
  completed_items : Nat
  description : String
deriving Repr, DecidableEq

/-- Embedding of `_create_progress_status(num_loaded, num_filtered, num_total)`. -/
def create_progress_status (numLoaded numFiltered numTotal : Nat) : Progress :=
  { total_items := numTotal
    completed_items := numLoaded + numFiltered
    description :=
      toString numLoaded ++ " files loaded (" ++ toString numFiltered ++ " filtered)" }

/-- The nine fixed glob patterns `find` enumerates. -/
def patterns : List String :=
  ["*.docx", "*.pdf", "*.xlsx", "*.xlsm", "*.pptx", "*.txt", "*.html", "*.md", "*.csv"]

/-- Embedding of the enumeration phase of `find`: the `try` block iterates
the patterns, calling `conn.listPath` for each and extending `items`; the
`except` clause surrounds the whole loop, so a failing call logs the error
and falls through with the items collected so far — the patterns after the
failing one are not attempted. Returns the collected file names and whether
an error was logged. -/
def enum_loop (listPath : String → Except String (List String)) :
    List String → List String → List String × Bool
  | [], items => (items, false)
  | p :: ps, items =>
    match listPath p with
    | Except.ok files => enum_loop listPath ps (items ++ files)
    | Except.error _ => (items, true)

/-- Embedding of the yield loop of `find`:
for each file: `yield (file, {})`; `num_loaded += 1`;
`if max_count > 0 and num_loaded >= max_count: break`;
then `progress(...)` when a reporter was supplied. Returns the yielded
names and the progress statuses reported (note the reporter call sits after
the break check, so the item that reaches `max_count` gets no report). -/
def find_yield_loop : List String → Int → Nat → Nat → List String × List Progress
  | [], _, _, _ => ([], [])
  | f :: fs, maxCount, numLoaded, numTotal =>
    let loaded := numLoaded + 1
    if 0 < maxCount ∧ (maxCount ≤ (loaded : Int)) then
      ([f], [])
    else
      let rest := find_yield_loop fs maxCount loaded numTotal
      (f :: rest.1, create_progress_status loaded 0 numTotal :: rest.2)

/-- What one run (one full consumption) of the `find` generator did. -/
structure FindRun where
  yielded : List (String × List (String × String))
  progressCalls : List Progress
  remoteConnectCalled : Bool
  remoteCloseCalled : Bool
  enumerationErrorLogged : Bool
deriving Repr, DecidableEq

/-- Embedding of `FilePipelineStorage.find`. Whatever the credential
arguments hold (all may be `None`), the method builds an `SMBConnection`
and calls `conn.connect` — the commented-out local `rglob` enumeration is
dead code and `search_path` is unused — then runs the enumeration loop over
the nine patterns, closes the connection, and runs the yield loop.
`conn.connect` itself is modelled as succeeding; `conn.listPath` is the
`listPath` argument. -/
def FilePipelineStorage.find (_st : FilePipelineStorage) (_creds : Creds)
    (listPath : String → Except String (List String)) (maxCount : Int)
    (hasProgress : Bool) : FindRun :=
  { yielded :=
      (find_yield_loop (enum_loop listPath patterns []).1 maxCount 0
        (enum_loop listPath patterns []).1.length).1.map (fun f => (f, []))
    progressCalls :=
      if hasProgress then
        (find_yield_loop (enum_loop listPath patterns []).1 maxCount 0
          (enum_loop listPath patterns []).1.length).2
      else []
    remoteConnectCalled := true
    remoteCloseCalled := true
    enumerationErrorLogged := (enum_loop listPath patterns []).2 }

/-- What one call of `getText` did. -/
structure GetTextRun where
  result : Except String String
  ext : String
  remoteConnectCalled : Bool
  remoteCloseCalled : Bool

/-- The Python error raised by the dispatch step of `getText`. -/
def nameErrorFuncDict : String :=
  "NameError: name func_dict is not defined"

/-- Embedding of `FilePipelineStorage.getText`. The method unconditionally
builds an `SMBConnection` and calls `conn.connect` (modelled as
succeeding), computes the extension, then calls `conn.retrieveFile` (the
`retrieve` argument) on `f"\x7bfile_path\x7d/\x7bkey\x7d"` with no
surrounding error handler, so a retrieval error propagates out of the
method before `conn.close()` is reached. When retrieval succeeds, the body
evaluates `ext in func_dict`; `func_dict` is defined only as a class
attribute of `FilePipelineStorage`, and a Python class body is not part of
the scope of the methods defined inside it, so this bare-name lookup raises
`NameError` on every call — making the trailing `conn.close()` unreachable
on every path. -/
def FilePipelineStorage.getText (key : String) (creds : Creds)
    (retrieve : String → Except String (List Nat)) : GetTextRun :=
  let ext := getTextExt key
  match retrieve (creds.filePath.getD "None" ++ "/" ++ key) with
  | Except.error e =>
    { result := Except.error e, ext := ext
      remoteConnectCalled := true, remoteCloseCalled := false }
  | Except.ok _ =>
    { result := Except.error nameErrorFuncDict, ext := ext
      remoteConnectCalled := true, remoteCloseCalled := false }

/-- A credentials record with nothing supplied. -/
def noCreds : Creds :=
  { userid := none, password := none, shareDirectory := none,
    fileServer := none, filePath := none }

/-- A retrieval that succeeds with a one-byte buffer. -/
def retrieveOk : String → Except String (List Nat) := fun _ => Except.ok [0]

/-- A retrieval that fails with a transport fault. -/
def retrieveErr : String → Except String (List Nat) := fun _ => Except.error "transport fault"

/-- A listing that fails on the second pattern and succeeds, with one file
named after the pattern, on every other. -/
def listPathC3 : String → Except String (List String) :=
  fun p => if p = "*.pdf" then Except.error "protocol fault" else Except.ok [p]

/-- A listing with two docx files and nothing else. -/
def listPathTwo : String → Except String (List String) :=
  fun p => if p = "*.docx" then Except.ok ["a.docx", "b.docx"] else Except.ok []

/-- C2: the claim says a key with an extension outside the dispatch table
yields an empty result and no error; evaluated at the failing input
`"a.xyz"` (whose extension `xyz` is indeed outside the table) with a
successful retrieval, `getText` instead raises `NameError`, because the
method reads the bare name `func_dict`, which is not in scope inside the
method body. -/
theorem getText_unknown_ext_raises :
    getTextExt "a.xyz" ∉ func_dict_exts
    ∧ (FilePipelineStorage.getText "a.xyz" noCreds retrieveOk).result
        = Except.error nameErrorFuncDict := by
  exact ⟨by decide, rfl⟩

/-- C4: the claim says the session is closed before `getText` returns on
every exit path; in the code `conn.close()` is unreachable: a successful
retrieval runs into the `NameError` of the `func_dict` lookup, and a failed
retrieval propagates out of the unguarded `conn.retrieveFile` call — in
both cases before `conn.close()`. Evaluated on both paths. -/
theorem getText_never_closes_session :
    (FilePipelineStorage.getText "a.txt" noCreds retrieveOk).remoteCloseCalled = false
    ∧ (FilePipelineStorage.getText "b.pdf" noCreds retrieveErr).remoteCloseCalled = false :=
  ⟨rfl, rfl⟩

/-- C5 counterexample: a `find` call with no remote credentials supplied
still builds an `SMBConnection` and calls `conn.connect` — it is not routed
to the local store, contradicting the claim that such a call enumerates
local files and opens no remote session. -/
theorem find_without_credentials_still_remote :
    (FilePipelineStorage.find (FilePipelineStorage.init none none) noCreds
        (fun _ => Except.ok []) (-1) false).remoteConnectCalled = true := rfl

/-- C5 (amended): `find` and `getText` always use the Remote Share Client —
they open a remote session whether or not remote credentials are supplied;
no routing between the local store and the remote client takes place
(only `get` / `set` / `has` / `delete` operate on the local store). -/
theorem find_getText_always_remote (st : FilePipelineStorage) (creds : Creds)
    (listPath : String → Except String (List String)) (maxCount : Int)
    (hasProgress : Bool) (key : String)
    (retrieve : String → Except String (List Nat)) :
    (FilePipelineStorage.find st creds listPath maxCount hasProgress).remoteConnectCalled = true
    ∧ (FilePipelineStorage.getText key creds retrieve).remoteConnectCalled = true := by
  constructor
  · rfl
  · unfold FilePipelineStorage.getText
    cases retrieve (creds.filePath.getD "None" ++ "/" ++ key) <;> rfl

/-- C3 counterexample: with a listing that fails on the second pattern
`*.pdf` and succeeds on all others, `find` yields only the file found for
`*.docx`: the remaining seven patterns are never attempted, although the
claim says enumeration continues with the remaining patterns after a
logged failure. -/
theorem find_enumeration_stops_at_failure :
    listPathC3 "*.xlsx" = Except.ok ["*.xlsx"]
    ∧ (FilePipelineStorage.find (FilePipelineStorage.init none none) noCreds
        listPathC3 (-1) false).yielded = [("*.docx", [])]
    ∧ (FilePipelineStorage.find (FilePipelineStorage.init none none) noCreds
        listPathC3 (-1) false).enumerationErrorLogged = true := by
  refine ⟨rfl, by decide, by decide⟩

theorem enum_loop_stops_after_error (listPath : String → Except String (List String))
    (gs : String → List String) (p : String) (ps2 : List String) (e : String)
    (h2 : listPath p = Except.error e) :
    ∀ ps1 : List String, (∀ q ∈ ps1, listPath q = Except.ok (gs q)) →
      ∀ acc, enum_loop listPath (ps1 ++ p :: ps2) acc = (acc ++ (ps1.map gs).flatten, true) := by
  intro ps1
  induction ps1 with
  | nil =>
    intro _ acc
    simp [enum_loop, h2]
  | cons q qs ih =>
    intro h1 acc
    have hq := h1 q (List.mem_cons_self q qs)
    have hqs : ∀ r ∈ qs, listPath r = Except.ok (gs r) :=
      fun r hr => h1 r (List.mem_cons_of_mem q hr)
    simp only [List.cons_append, enum_loop, hq, List.append_eq]
    rw [ih hqs (acc ++ gs q)]
    simp

/-- C3 (amended): when the listing call fails for one pattern, the error is
logged and the patterns after it are not attempted; `find` itself does not
fail — it proceeds with the files collected from the patterns before the
failing one. -/
theorem find_enumeration_best_effort (listPath : String → Except String (List String))
    (gs : String → List String) (ps1 : List String) (p : String) (ps2 : List String)
    (e : String)
    (hpat : patterns = ps1 ++ p :: ps2)
    (h1 : ∀ q ∈ ps1, listPath q = Except.ok (gs q))
    (h2 : listPath p = Except.error e) :
    enum_loop listPath patterns [] = ((ps1.map gs).flatten, true)
    ∧ ∀ st creds maxCount hasProgress,
        (FilePipelineStorage.find st creds listPath maxCount
          hasProgress).enumerationErrorLogged = true := by
  have hmain := enum_loop_stops_after_error listPath gs p ps2 e h2 ps1 h1 []
  rw [← hpat] at hmain
  refine ⟨by simpa using hmain, ?_⟩
  intro st creds maxCount hasProgress
  unfold FilePipelineStorage.find
  simp [hmain]

/-- C3 witness: the amended statement applied to the concrete listing that
fails on `*.pdf` after `*.docx` succeeded. -/
theorem find_enumeration_best_effort_witness :
    enum_loop listPathC3 patterns [] = (((["*.docx"] : List String).map (fun q => [q])).flatten, true)
    ∧ (FilePipelineStorage.find (FilePipelineStorage.init none none) noCreds
        listPathC3 (-1) false).enumerationErrorLogged = true := by
  have h := find_enumeration_best_effort listPathC3 (fun q => [q]) ["*.docx"] "*.pdf"
    ["*.xlsx", "*.xlsm", "*.pptx", "*.txt", "*.html", "*.md", "*.csv"] "protocol fault"
    rfl (by intro q hq; rw [List.mem_singleton.mp hq]; rfl) rfl
  exact ⟨h.1, h.2 (FilePipelineStorage.init none none) noCreds (-1) false⟩

theorem find_yield_loop_unlimited (fs : List String) (maxCount : Int)
    (numLoaded numTotal : Nat) (h : maxCount ≤ 0) :
    (find_yield_loop fs maxCount numLoaded numTotal).1 = fs := by
  induction fs generalizing numLoaded with
  | nil => rfl
  | cons f fs ih =>
    simp only [find_yield_loop]
    rw [if_neg (by omega)]
    simp [ih]

theorem find_yield_loop_take (fs : List String) (maxCount : Int)
    (numLoaded numTotal : Nat) (hpos : 0 < maxCount)
    (hlt : numLoaded < maxCount.toNat) :
    (find_yield_loop fs maxCount numLoaded numTotal).1
      = fs.take (maxCount.toNat - numLoaded) := by
  induction fs generalizing numLoaded with
  | nil => simp [find_yield_loop]
  | cons f fs ih =>
    simp only [find_yield_loop]
    by_cases hb : maxCount ≤ ((numLoaded + 1 : Nat) : Int)
    · rw [if_pos ⟨hpos, hb⟩]
      have hone : maxCount.toNat - numLoaded = 1 := by omega
      simp [hone]
    · rw [if_neg (by omega)]
      have hsucc : maxCount.toNat - numLoaded = (maxCount.toNat - (numLoaded + 1)) + 1 := by
        omega
      rw [hsucc]
      simp [ih (numLoaded + 1) (by omega)]

/-- C7: a `find` run with `maxCount = n > 0` yields exactly
`min n (number of available matches)` items — the first `n` of the
enumerated files — and a `maxCount ≤ 0` yields every enumerated file. -/
theorem find_honors_max_count (st : FilePipelineStorage) (creds : Creds)
    (listPath : String → Except String (List String)) (maxCount : Int)
    (hasProgress : Bool) :
    (FilePipelineStorage.find st creds listPath maxCount hasProgress).yielded
      = (if 0 < maxCount
          then (enum_loop listPath patterns []).1.take maxCount.toNat
          else (enum_loop listPath patterns []).1).map (fun f => (f, []))
    ∧ (FilePipelineStorage.find st creds listPath maxCount hasProgress).yielded.length
      = if 0 < maxCount
          then min maxCount.toNat (enum_loop listPath patterns []).1.length
          else (enum_loop listPath patterns []).1.length := by
  have hyield : (FilePipelineStorage.find st creds listPath maxCount hasProgress).yielded
      = (if 0 < maxCount
          then (enum_loop listPath patterns []).1.take maxCount.toNat
          else (enum_loop listPath patterns []).1).map (fun f => (f, [])) := by
    simp only [FilePipelineStorage.find]
    by_cases h : 0 < maxCount
    · rw [if_pos h, find_yield_loop_take _ _ _ _ h (by omega)]
      simp
    · rw [if_neg h, find_yield_loop_unlimited _ _ _ _ (by omega)]
  refine ⟨hyield, ?_⟩
  rw [hyield]
  by_cases h : 0 < maxCount
  · simp [if_pos h, List.length_take]
  · simp [if_neg h]

theorem find_yield_loop_progress (fs : List String) (maxCount : Int)
    (numLoaded numTotal : Nat)
    (h : maxCount ≤ 0 ∨ numLoaded < maxCount.toNat) :
    (find_yield_loop fs maxCount numLoaded numTotal).2
      = (List.range
          (if 0 < maxCount ∧ maxCount.toNat ≤ numLoaded + fs.length
           then maxCount.toNat - 1 - numLoaded
           else fs.length)).map
          (fun i => create_progress_status (numLoaded + i + 1) 0 numTotal) := by
  induction fs generalizing numLoaded with
  | nil =>
    simp only [find_yield_loop, List.length_nil]
    rw [if_neg (by omega)]
    simp
  | cons f fs ih =>
    simp only [find_yield_loop]
    by_cases hb : 0 < maxCount ∧ maxCount ≤ ((numLoaded + 1 : Nat) : Int)
    · rw [if_pos hb]
      have hc : (if 0 < maxCount ∧ maxCount.toNat ≤ numLoaded + (f :: fs).length
          then maxCount.toNat - 1 - numLoaded else (f :: fs).length) = 0 := by
        simp only [List.length_cons]
        rw [if_pos (by omega)]
        omega
      rw [hc]
      simp
    · rw [if_neg hb]
      rw [ih (numLoaded + 1) (by omega)]
      have hc : (if 0 < maxCount ∧ maxCount.toNat ≤ numLoaded + (f :: fs).length
            then maxCount.toNat - 1 - numLoaded else (f :: fs).length)
          = (if 0 < maxCount ∧ maxCount.toNat ≤ (numLoaded + 1) + fs.length
            then maxCount.toNat - 1 - (numLoaded + 1) else fs.length) + 1 := by
        simp only [List.length_cons]
        by_cases hcase : 0 < maxCount ∧ maxCount.toNat ≤ numLoaded + 1 + fs.length
        · rw [if_pos (by omega), if_pos hcase]
          omega
        · rw [if_neg (by omega), if_neg hcase]
      rw [hc, List.range_succ_eq_map]
      simp only [List.map_cons, List.map_map, Nat.add_zero]
      congr 1
      apply List.map_congr_left
      intro i _
      simp only [Function.comp_apply, Nat.succ_eq_add_one]
      congr 1
      omega

/-- C8 (amended): with a progress reporter supplied, `find` invokes it
after each yielded item with the count of items loaded so far, a filtered
count of 0, and the total number of enumerated items — except that the
item whose yield reaches the `maxCount` limit receives no report, because
the reporter call sits after the break check in the loop. -/
theorem find_progress_reports (st : FilePipelineStorage) (creds : Creds)
    (listPath : String → Except String (List String)) (maxCount : Int) :
    (FilePipelineStorage.find st creds listPath maxCount true).progressCalls
      = (List.range
          (if 0 < maxCount ∧ maxCount.toNat ≤ (enum_loop listPath patterns []).1.length
           then maxCount.toNat - 1
           else (enum_loop listPath patterns []).1.length)).map
          (fun i => create_progress_status (i + 1) 0
            (enum_loop listPath patterns []).1.length) := by
  simp only [FilePipelineStorage.find, if_true]
  rw [find_yield_loop_progress _ _ 0 _ (by omega)]
  simp

/-- C8 counterexample: with two files enumerated and `maxCount = 1`, one
item is yielded and the reporter is never invoked — contradicting the
claim that the callback runs after each yielded item including the last. -/
theorem find_progress_skips_last :
    (FilePipelineStorage.find (FilePipelineStorage.init none none) noCreds
        listPathTwo 1 true).yielded = [("a.docx", [])]
    ∧ (FilePipelineStorage.find (FilePipelineStorage.init none none) noCreds
        listPathTwo 1 true).progressCalls = [] := by
  refine ⟨by decide, by decide⟩

end FileStorage
